import Mathlib

/-!
Shallow embedding of `sync-rules.py` (the universal-rules sync tool).

The script synchronizes `.md` rule files from a source directory into the
`.claude/` subdirectory of target project directories.  The embedding models:

* file contents as `String`s standing for the raw bytes of the file, together
  with a `decodable` flag recording whether `read_text(encoding="utf-8")`
  succeeds on those bytes.  Strict UTF-8 decoding is injective, so two
  decodable files have equal decoded text iff they have equal bytes; the
  Python `source_content == target_content` comparison is therefore modelled
  as equality of the byte contents.
* I/O failures as explicit Boolean flags: an OS-level read failure on the
  source file (`RuleFile.readFail`), and per-target-name read/write failures
  carried by the filesystem state (`FS.readFailT`, `FS.writeFail`).
* the state of one project's `.claude/` directory as a map from file name to
  optional byte content, plus the decodability of each present file.
-/

namespace SyncRules

/-- The per-project statistics dictionary `stats` built by
`sync_rules_to_project` (lines 99-105 of `sync-rules.py`). -/
structure Stats where
  copied : Nat
  updated : Nat
  skipped : Nat
  errors : Nat
deriving Repr, DecidableEq

/-- The all-zero statistics record every project starts from. -/
def Stats.zero : Stats := ⟨0, 0, 0, 0⟩

/-- Componentwise sum of two statistics records, as used by the accumulation
loop in `main` (lines 232-233). -/
def Stats.add (a b : Stats) : Stats :=
  ⟨a.copied + b.copied, a.updated + b.updated, a.skipped + b.skipped,
    a.errors + b.errors⟩

/-- Total number of counter increments recorded in a statistics record. -/
def Stats.total (s : Stats) : Nat := s.copied + s.updated + s.skipped + s.errors

/-- A source rule file from the universal-rules directory: its file name, its
byte content, whether those bytes decode as UTF-8, and whether an OS-level
read of the file fails (permission denied and the like). -/
structure RuleFile where
  name : String
  content : String
  decodable : Bool
  readFail : Bool

/-- State of one project's `.claude/` directory together with the I/O
environment for paths inside it: `files` maps a file name to its byte content
when the file exists, `decodable` tells whether a present file's bytes decode
as UTF-8, `readFailT` tells whether an OS-level read of the target file fails,
and `writeFail` tells whether writing at that name fails. -/
structure FS where
  files : String → Option String
  decodable : String → Bool
  readFailT : String → Bool
  writeFail : String → Bool

/-- Effect of a successful `shutil.copy2(rule_file, target_file)` (line 129)
on the `.claude/` directory: the target now holds the source's bytes, its
decodability is the source's, and the fresh copy is readable (`copy2` copies
the permission bits of the readable source). -/
def FS.write (fs : FS) (rf : RuleFile) : FS :=
  { files := fun n => if n = rf.name then some rf.content else fs.files n
    decodable := fun n => if n = rf.name then rf.decodable else fs.decodable n
    readFailT := fun n => if n = rf.name then false else fs.readFailT n
    writeFail := fs.writeFail }

/-- Whether `shutil.copy2(rule_file, target_file)` raises: it reads the
source at the OS level and writes the target, so it fails iff either the
source read or the target write fails (no UTF-8 decoding is involved). -/
def copy2Fails (fs : FS) (rf : RuleFile) : Bool :=
  rf.readFail || fs.writeFail rf.name

/-- One iteration of the `for rule_file in rule_files` loop of
`sync_rules_to_project` (lines 107-137): the statistics delta for this file
and whether `shutil.copy2` is executed and succeeds.  Mirrors the source:
if the target exists, both files are read with `read_text(encoding="utf-8")`
(a failure of either read is caught by the `except` and counted as an error);
equal contents are skipped; otherwise the decision counter (`updated` or
`copied`) is incremented first, and only then, when not `dry_run`, the copy is
attempted — so a failing copy adds an error on top of the already-incremented
decision counter. -/
def syncFileStep (fs : FS) (rf : RuleFile) (dryRun : Bool) : Stats × Bool :=
  match fs.files rf.name with
  | some tcontent =>
    if rf.readFail || !rf.decodable then (⟨0, 0, 0, 1⟩, false)
    else if fs.readFailT rf.name || !fs.decodable rf.name then (⟨0, 0, 0, 1⟩, false)
    else if rf.content = tcontent then (⟨0, 0, 1, 0⟩, false)
    else if dryRun then (⟨0, 1, 0, 0⟩, false)
    else if copy2Fails fs rf then (⟨0, 1, 0, 1⟩, false)
    else (⟨0, 1, 0, 0⟩, true)
  | none =>
    if dryRun then (⟨1, 0, 0, 0⟩, false)
    else if copy2Fails fs rf then (⟨1, 0, 0, 1⟩, false)
    else (⟨1, 0, 0, 0⟩, true)

/-- Processing of one rule file: the statistics delta and the resulting state
of the `.claude/` directory (unchanged unless the copy was performed). -/
def syncFile (fs : FS) (rf : RuleFile) (dryRun : Bool) : Stats × FS :=
  let sw := syncFileStep fs rf dryRun
  (sw.1, if sw.2 then fs.write rf else fs)

/-- The whole `for rule_file in rule_files` loop: fold `syncFile` over the
rule files in order, accumulating the statistics. -/
def syncFiles (fs : FS) (rules : List RuleFile) (dryRun : Bool) : Stats × FS :=
  match rules with
  | [] => (Stats.zero, fs)
  | rf :: rest =>
    let sf := syncFile fs rf dryRun
    let sr := syncFiles sf.2 rest dryRun
    (sf.1.add sr.1, sr.2)

/-- A target project directory: whether the project path itself exists,
whether `<project>/.claude` exists, whether `claude_dir.mkdir(parents=True)`
would raise, and the state of the `.claude/` directory. -/
structure Project where
  name : String
  pathExists : Bool
  claudeExists : Bool
  mkdirFail : Bool
  fs : FS

/-- The sync engine `sync_rules_to_project` (lines 81-139).  If the
`.claude/` directory is missing it is created first with
`mkdir(parents=True, exist_ok=True)` — note this happens even under
`dry_run`, and `parents=True` creates any missing project-path segments as
well; a failure of this `mkdir` is raised outside the per-file
`try`/`except`, so it propagates to the caller (modelled as `Except.error`).
Then every rule file is processed in order. -/
def sync_rules_to_project (p : Project) (rules : List RuleFile)
    (dryRun : Bool) : Except Unit (Stats × Project) :=
  if p.claudeExists then
    let r := syncFiles p.fs rules dryRun
    Except.ok (r.1, { p with fs := r.2 })
  else if p.mkdirFail then Except.error ()
  else
    let p1 : Project := { p with pathExists := true, claudeExists := true }
    let r := syncFiles p1.fs rules dryRun
    Except.ok (r.1, { p1 with fs := r.2 })

/-- An entry of the parent directory as seen by `find_projects`: its name,
whether it is a directory, and whether it contains a `.claude` entry that
exists and is a directory. -/
structure DirEntry where
  name : String
  isDir : Bool
  hasClaudeDir : Bool

/-- The filter applied by `find_projects` (lines 66-76) to one entry of the
parent directory: keep directories whose name does not start with `.`, that
are not the universal-rules directory itself (all entries live in the same
parent, so path equality with `UNIVERSAL_RULES_DIR` is name equality), and
that contain an existing `.claude` directory. -/
def projectFilter (selfName : String) (e : DirEntry) : Bool :=
  e.isDir && !e.name.startsWith "." && e.name ≠ selfName && e.hasClaudeDir

/-- `find_projects` (lines 62-78): the kept entries, returned sorted by name
(`sorted(projects)` on paths sharing the same parent orders by name). -/
def find_projects (entries : List DirEntry) (selfName : String) : List String :=
  List.insertionSort (· ≤ ·) ((entries.filter (projectFilter selfName)).map DirEntry.name)

/-- The `for project in projects` loop of `main` (lines 221-233): run the
sync engine on every target in order, accumulating totals.  An exception
escaping `sync_rules_to_project` (a failed `mkdir`) is uncaught in `main`,
so it aborts the whole loop: the error propagates and no totals exist. -/
def runAll (ps : List Project) (rules : List RuleFile) (dryRun : Bool) :
    Except Unit (Stats × List Project) :=
  match ps with
  | [] => Except.ok (Stats.zero, [])
  | p :: rest =>
    match sync_rules_to_project p rules dryRun with
    | Except.error e => Except.error e
    | Except.ok r =>
      match runAll rest rules dryRun with
      | Except.error e => Except.error e
      | Except.ok rr => Except.ok (r.1.add rr.1, r.2 :: rr.2)

/-- Target resolution of `main` (lines 199-204): an explicit `--project`
path takes precedence over `--all` discovery. -/
def mainTargets (pm : Option Project) (discovered : List Project) : List Project :=
  match pm with
  | some p => [p]
  | none => discovered

/-- `main` (lines 142-277) reduced to its decision structure.  Inputs: the
`--project` argument (already resolved to a `Project`), the `--all` flag, the
`--dry-run` flag, the loaded rule files, and the projects `find_projects`
would discover.  Output: `Except.error` when an uncaught exception aborts the
run, otherwise the process exit code, the accumulated totals, and the final
states of the targets.  Exit 1 when neither mode is given (lines 173-176) or
when no rule files were found (lines 181-183); exit 0 when the target list is
empty (lines 206-208) and at the end of every completed run (per-file error
counts never influence the exit code). -/
def mainRun (pm : Option Project) (allMode : Bool) (dryRun : Bool)
    (rules : List RuleFile) (discovered : List Project) :
    Except Unit (Nat × Stats × List Project) :=
  if pm.isNone && !allMode then Except.ok (1, Stats.zero, mainTargets pm discovered)
  else if rules.isEmpty then Except.ok (1, Stats.zero, mainTargets pm discovered)
  else if (mainTargets pm discovered).isEmpty then
    Except.ok (0, Stats.zero, mainTargets pm discovered)
  else (runAll (mainTargets pm discovered) rules dryRun).map (fun r => (0, r.1, r.2))

/-- Failure condition of one iteration of the per-file loop: the conditions
under which the `try` body of lines 110-133 raises.  When the target exists:
a source or target `read_text` failure (OS read failure or invalid UTF-8),
or, for differing contents outside dry-run, a failing `copy2`.  When the
target is missing: a failing `copy2` outside dry-run. -/
def stepFails (fs : FS) (rf : RuleFile) (dryRun : Bool) : Bool :=
  match fs.files rf.name with
  | some tcontent =>
    rf.readFail || !rf.decodable || fs.readFailT rf.name || !fs.decodable rf.name ||
      (!(rf.content = tcontent : Bool) && !dryRun && copy2Fails fs rf)
  | none => !dryRun && copy2Fails fs rf

/-- Agreement of two directory states at one file name: every component the
per-file loop can read at that name coincides. -/
def FS.agreeAt (a b : FS) (n : String) : Prop :=
  a.files n = b.files n ∧ a.decodable n = b.decodable n ∧
    a.readFailT n = b.readFailT n ∧ a.writeFail n = b.writeFail n

/-- A target name holds a faithful, readable copy of a rule file. -/
def syncedAt (fs : FS) (rf : RuleFile) : Prop :=
  fs.files rf.name = some rf.content ∧ fs.decodable rf.name = true ∧
    fs.readFailT rf.name = false

/-! ### Basic lemmas -/

theorem Stats.errors_add (a b : Stats) : (a.add b).errors = a.errors + b.errors := rfl

theorem Stats.add_zero' (a : Stats) : a.add Stats.zero = a := by
  cases a; simp [Stats.add, Stats.zero]

theorem Stats.zero_add' (a : Stats) : Stats.zero.add a = a := by
  cases a; simp [Stats.add, Stats.zero]

theorem Stats.add_assoc' (a b c : Stats) : (a.add b).add c = a.add (b.add c) := by
  cases a; cases b; cases c
  simp [Stats.add, Nat.add_assoc]

theorem Stats.add_left_comm' (a b c : Stats) : a.add (b.add c) = b.add (a.add c) := by
  cases a; cases b; cases c
  simp only [Stats.add, Stats.mk.injEq]
  omega

theorem Stats.add_comm' (a b : Stats) : a.add b = b.add a := by
  cases a; cases b
  simp only [Stats.add, Stats.mk.injEq]
  omega

theorem Stats.add_right_comm' (a b c : Stats) : a.add (b.add c) = (a.add c).add b := by
  cases a; cases b; cases c
  simp only [Stats.add, Stats.mk.injEq]
  omega

theorem FS.agreeAt_refl (a : FS) (n : String) : FS.agreeAt a a n := ⟨rfl, rfl, rfl, rfl⟩

theorem FS.agreeAt_symm {a b : FS} {n : String} (h : FS.agreeAt a b n) :
    FS.agreeAt b a n := by
  obtain ⟨h1, h2, h3, h4⟩ := h
  exact ⟨h1.symm, h2.symm, h3.symm, h4.symm⟩

theorem FS.agreeAt_trans {a b c : FS} {n : String} (h : FS.agreeAt a b n)
    (h' : FS.agreeAt b c n) : FS.agreeAt a c n := by
  obtain ⟨h1, h2, h3, h4⟩ := h
  obtain ⟨g1, g2, g3, g4⟩ := h'
  exact ⟨h1.trans g1, h2.trans g2, h3.trans g3, h4.trans g4⟩

theorem FS.write_writeFail (fs : FS) (rf : RuleFile) :
    (fs.write rf).writeFail = fs.writeFail := rfl

/-- Writing a file changes the state only at the written name. -/
theorem FS.write_agreeAt_ne (fs : FS) (rf : RuleFile) {m : String}
    (h : m ≠ rf.name) : FS.agreeAt (fs.write rf) fs m := by
  refine ⟨?_, ?_, ?_, rfl⟩ <;> simp [FS.write, h]

/-- Writing the same rule file to two states that agree at a name yields
states that agree at that name. -/
theorem FS.write_agreeAt (rf : RuleFile) {a b : FS} {m : String}
    (h : FS.agreeAt a b m) : FS.agreeAt (a.write rf) (b.write rf) m := by
  obtain ⟨h1, h2, h3, h4⟩ := h
  by_cases hm : m = rf.name <;>
    refine ⟨?_, ?_, ?_, h4⟩ <;> simp [FS.write, hm, h1, h2, h3]

/-- The per-file decision depends on the directory state only through the
components at the processed file's name. -/
theorem syncFileStep_agree {fs fs' : FS} {rf : RuleFile}
    (h : FS.agreeAt fs fs' rf.name) (d : Bool) :
    syncFileStep fs rf d = syncFileStep fs' rf d := by
  obtain ⟨h1, h2, h3, h4⟩ := h
  unfold syncFileStep copy2Fails
  rw [h1, h2, h3, h4]

/-- The resulting state of one per-file step is the input state or the input
state with the file written, according to the step's write flag. -/
theorem syncFile_snd (fs : FS) (rf : RuleFile) (d : Bool) :
    (syncFile fs rf d).2 =
      (if (syncFileStep fs rf d).2 then fs.write rf else fs) := rfl

theorem syncFile_fst (fs : FS) (rf : RuleFile) (d : Bool) :
    (syncFile fs rf d).1 = (syncFileStep fs rf d).1 := rfl

/-- Processing one file preserves agreement at every name, provided the two
states agree at the processed name. -/
theorem syncFile_agreeAt {fs fs' : FS} {rf : RuleFile} (d : Bool)
    (hat : FS.agreeAt fs fs' rf.name) {m : String} (hm : FS.agreeAt fs fs' m) :
    FS.agreeAt (syncFile fs rf d).2 (syncFile fs' rf d).2 m := by
  rw [syncFile_snd, syncFile_snd, syncFileStep_agree hat]
  cases (syncFileStep fs' rf d).2 with
  | false => simpa using hm
  | true => simpa using FS.write_agreeAt rf hm

/-- Processing one file leaves the state untouched at every other name. -/
theorem syncFile_preserves {m : String} {rf : RuleFile} (fs : FS) (d : Bool)
    (h : m ≠ rf.name) : FS.agreeAt (syncFile fs rf d).2 fs m := by
  rw [syncFile_snd]
  cases (syncFileStep fs rf d).2 with
  | false => simpa using FS.agreeAt_refl fs m
  | true => simpa using FS.write_agreeAt_ne fs rf h

theorem syncFile_writeFail (fs : FS) (rf : RuleFile) (d : Bool) :
    (syncFile fs rf d).2.writeFail = fs.writeFail := by
  rw [syncFile_snd]
  cases (syncFileStep fs rf d).2 <;> simp [FS.write]

/-- A dry-run step never mutates the directory state. -/
theorem syncFile_dry_snd (fs : FS) (rf : RuleFile) :
    (syncFile fs rf true).2 = fs := by
  rw [syncFile_snd]
  have h : (syncFileStep fs rf true).2 = false := by
    unfold syncFileStep
    cases fs.files rf.name with
    | none => simp
    | some t =>
      split_ifs <;> simp_all
      split <;> rfl
  rw [h]
  simp

/-- A dry run of the whole loop never mutates the directory state. -/
theorem syncFiles_dry_snd (rules : List RuleFile) (fs : FS) :
    (syncFiles fs rules true).2 = fs := by
  induction rules generalizing fs with
  | nil => rfl
  | cons rf rest ih =>
    show (syncFiles (syncFile fs rf true).2 rest true).2 = fs
    rw [syncFile_dry_snd, ih]

/-- Statistics and agreement transfer along the whole loop between two states
that agree at every processed name. -/
theorem syncFiles_agree {rules : List RuleFile} {fs fs' : FS} (d : Bool)
    (h : ∀ rf ∈ rules, FS.agreeAt fs fs' rf.name) :
    (syncFiles fs rules d).1 = (syncFiles fs' rules d).1 ∧
      ∀ m, FS.agreeAt fs fs' m →
        FS.agreeAt (syncFiles fs rules d).2 (syncFiles fs' rules d).2 m := by
  induction rules generalizing fs fs' with
  | nil => exact ⟨rfl, fun m hm => hm⟩
  | cons rf rest ih =>
    have hat : FS.agreeAt fs fs' rf.name := h rf (by simp)
    have hrest : ∀ r ∈ rest, FS.agreeAt (syncFile fs rf d).2 (syncFile fs' rf d).2 r.name :=
      fun r hr => syncFile_agreeAt d hat (h r (by simp [hr]))
    obtain ⟨ihs, iha⟩ := ih hrest
    constructor
    · show ((syncFile fs rf d).1.add (syncFiles (syncFile fs rf d).2 rest d).1) =
        ((syncFile fs' rf d).1.add (syncFiles (syncFile fs' rf d).2 rest d).1)
      rw [syncFile_fst, syncFile_fst, syncFileStep_agree hat, ihs]
    · intro m hm
      show FS.agreeAt (syncFiles (syncFile fs rf d).2 rest d).2
        (syncFiles (syncFile fs' rf d).2 rest d).2 m
      exact iha m (syncFile_agreeAt d hat hm)

/-- The whole loop leaves the state untouched at names none of the processed
files bear. -/
theorem syncFiles_preserves {rules : List RuleFile} {m : String} (fs : FS) (d : Bool)
    (h : ∀ rf ∈ rules, m ≠ rf.name) :
    FS.agreeAt (syncFiles fs rules d).2 fs m := by
  induction rules generalizing fs with
  | nil => exact FS.agreeAt_refl fs m
  | cons rf rest ih =>
    show FS.agreeAt (syncFiles (syncFile fs rf d).2 rest d).2 fs m
    refine FS.agreeAt_trans (ih (syncFile fs rf d).2 (fun r hr => h r (by simp [hr]))) ?_
    exact syncFile_preserves fs d (h rf (by simp))

theorem syncFiles_writeFail (rules : List RuleFile) (fs : FS) (d : Bool) :
    (syncFiles fs rules d).2.writeFail = fs.writeFail := by
  induction rules generalizing fs with
  | nil => rfl
  | cons rf rest ih =>
    show (syncFiles (syncFile fs rf d).2 rest d).2.writeFail = fs.writeFail
    rw [ih, syncFile_writeFail]

/-- Splitting the loop over an appended list. -/
theorem syncFiles_append (xs ys : List RuleFile) (fs : FS) (d : Bool) :
    syncFiles fs (xs ++ ys) d =
      ((syncFiles fs xs d).1.add (syncFiles (syncFiles fs xs d).2 ys d).1,
        (syncFiles (syncFiles fs xs d).2 ys d).2) := by
  induction xs generalizing fs with
  | nil => simp [syncFiles, Stats.zero_add']
  | cons rf rest ih =>
    rw [show (rf :: rest) ++ ys = rf :: (rest ++ ys) from rfl,
      show syncFiles fs (rf :: (rest ++ ys)) d =
        ((syncFile fs rf d).1.add (syncFiles (syncFile fs rf d).2 (rest ++ ys) d).1,
          (syncFiles (syncFile fs rf d).2 (rest ++ ys) d).2) from rfl,
      ih,
      show syncFiles fs (rf :: rest) d =
        ((syncFile fs rf d).1.add (syncFiles (syncFile fs rf d).2 rest d).1,
          (syncFiles (syncFile fs rf d).2 rest d).2) from rfl]
    simp [Stats.add_assoc']

/-- One per-file step produces the same statistics under dry-run as without,
provided the copy would not fail (the decision logic never consults
`dry_run`; only the presence of the copy does). -/
theorem syncFileStep_dry_fst {fs : FS} {rf : RuleFile}
    (hsr : rf.readFail = false) (hw : fs.writeFail rf.name = false) :
    (syncFileStep fs rf true).1 = (syncFileStep fs rf false).1 := by
  have hc : copy2Fails fs rf = false := by simp [copy2Fails, hsr, hw]
  unfold syncFileStep
  cases fs.files rf.name with
  | some t =>
    dsimp only
    split_ifs <;> simp_all
  | none =>
    dsimp only
    simp [hc]

/-- The whole loop produces the same statistics under dry-run as without,
provided the rule-file names are distinct (as `get_rule_files` guarantees)
and no source read or target write fails. -/
theorem syncFiles_dry_fst (rules : List RuleFile) (fs : FS)
    (hnod : (rules.map RuleFile.name).Nodup)
    (hio : ∀ rf ∈ rules, rf.readFail = false ∧ fs.writeFail rf.name = false) :
    (syncFiles fs rules true).1 = (syncFiles fs rules false).1 := by
  induction rules generalizing fs with
  | nil => rfl
  | cons rf rest ih =>
    obtain ⟨hsr, hw⟩ := hio rf (by simp)
    rw [List.map_cons, List.nodup_cons] at hnod
    obtain ⟨hni, hnod'⟩ := hnod
    show ((syncFile fs rf true).1.add (syncFiles (syncFile fs rf true).2 rest true).1) =
      ((syncFile fs rf false).1.add (syncFiles (syncFile fs rf false).2 rest false).1)
    rw [syncFile_dry_snd]
    rw [show (syncFile fs rf true).1 = (syncFile fs rf false).1 from by
      rw [syncFile_fst, syncFile_fst, syncFileStep_dry_fst hsr hw]]
    congr 1
    have hagree : ∀ r ∈ rest, FS.agreeAt fs (syncFile fs rf false).2 r.name := by
      intro r hr
      have hne : r.name ≠ rf.name := by
        intro hEq
        exact hni (hEq ▸ List.mem_map_of_mem RuleFile.name hr)
      exact FS.agreeAt_symm (syncFile_preserves fs false hne)
    rw [(syncFiles_agree true hagree).1]
    apply ih _ hnod'
    intro r hr
    obtain ⟨a, b⟩ := hio r (List.mem_cons_of_mem rf hr)
    refine ⟨a, ?_⟩
    rw [syncFile_writeFail]
    exact b

/-- Unfolding of the sync engine when the `.claude/` directory exists. -/
theorem sync_ok (p : Project) (rules : List RuleFile) (d : Bool)
    (h : p.claudeExists = true) :
    sync_rules_to_project p rules d =
      Except.ok ((syncFiles p.fs rules d).1,
        { p with fs := (syncFiles p.fs rules d).2 }) := by
  unfold sync_rules_to_project
  rw [if_pos h]

/-- Unfolding of the sync engine when the `.claude/` directory is missing and
its creation succeeds: the directory (with any missing parents) is created
first — regardless of `dry_run` — and the loop then runs. -/
theorem sync_mk (p : Project) (rules : List RuleFile) (d : Bool)
    (h : p.claudeExists = false) (h2 : p.mkdirFail = false) :
    sync_rules_to_project p rules d =
      Except.ok ((syncFiles p.fs rules d).1,
        { p with
            pathExists := true
            claudeExists := true
            fs := (syncFiles p.fs rules d).2 }) := by
  unfold sync_rules_to_project
  rw [if_neg (by simp [h]), if_neg (by simp [h2])]

/-- Unfolding of the sync engine when the `.claude/` directory is missing and
`mkdir` raises: the exception propagates before any rule file is touched. -/
theorem sync_err (p : Project) (rules : List RuleFile) (d : Bool)
    (h : p.claudeExists = false) (h2 : p.mkdirFail = true) :
    sync_rules_to_project p rules d = Except.error () := by
  unfold sync_rules_to_project
  rw [if_neg (by simp [h]), if_pos h2]

/-! ### Concrete fixtures for witnesses and counterexamples -/

/-- An empty `.claude/` directory with a benign I/O environment. -/
def fsEmpty : FS :=
  ⟨fun _ => none, fun _ => true, fun _ => false, fun _ => false⟩

/-- An empty `.claude/` directory where every write fails (e.g. the directory
is not writable). -/
def fsNoWrite : FS :=
  ⟨fun _ => none, fun _ => true, fun _ => false, fun _ => true⟩

/-- A `.claude/` directory holding `a.md` with content `old`. -/
def fsOld : FS :=
  ⟨fun n => if n = "a.md" then some "old" else none,
    fun _ => true, fun _ => false, fun _ => false⟩

/-- A `.claude/` directory holding `b.md` whose bytes are not valid UTF-8. -/
def fsBadTarget : FS :=
  ⟨fun n => if n = "b.md" then some "y" else none,
    fun _ => false, fun _ => false, fun _ => false⟩

/-- A readable, decodable source rule file `a.md` with content `new`. -/
def rfNew : RuleFile := ⟨"a.md", "new", true, false⟩

/-- A readable source rule file `b.md` whose bytes are not valid UTF-8. -/
def rfBad : RuleFile := ⟨"b.md", "x", false, false⟩

/-- A project directory whose `.claude/` subdirectory does not exist yet. -/
def projMissing : Project := ⟨"proj", true, false, false, fsEmpty⟩

/-- A project directory with an existing `.claude/` holding `a.md`(`old`). -/
def projOld : Project := ⟨"proj", true, true, false, fsOld⟩

/-! ### Claim C2 -/

/-- C2, counterexample: on a project whose `.claude/` directory is missing, a
dry-run still creates that directory — `mkdir` at lines 94-95 is not guarded
by `dry_run` — so dry-run does not leave the filesystem untouched. -/
theorem claim_C2_cex :
    projMissing.claudeExists = false ∧
      (sync_rules_to_project projMissing [] true).map (fun r => r.2.claudeExists) =
        Except.ok true :=
  ⟨rfl, rfl⟩

/-- C2, amended: a dry run writes and modifies no file (the `.claude/`
contents are left exactly as found), but it does still create a missing
`.claude/` directory, `dry_run` notwithstanding; its reported counts equal
the counts of the same run without `dry_run`, provided the rule-file names
are distinct (as the loader guarantees) and the non-dry run would hit no
source-read or target-write failure (such a failure adds an `errors` count
only in the real run). -/
theorem claim_C2 (p : Project) (rules : List RuleFile)
    (hmk : p.claudeExists = false → p.mkdirFail = false)
    (hnod : (rules.map RuleFile.name).Nodup)
    (hio : ∀ rf ∈ rules, rf.readFail = false ∧ p.fs.writeFail rf.name = false) :
    ∃ s pd pw, sync_rules_to_project p rules true = Except.ok (s, pd) ∧
      pd.fs = p.fs ∧ pd.claudeExists = true ∧
      sync_rules_to_project p rules false = Except.ok (s, pw) := by
  have hs := syncFiles_dry_fst rules p.fs hnod hio
  cases hce : p.claudeExists with
  | true =>
    refine ⟨(syncFiles p.fs rules false).1, p,
      { p with fs := (syncFiles p.fs rules false).2 }, ?_, rfl, hce, ?_⟩
    · rw [sync_ok p rules true hce, syncFiles_dry_snd, hs]
    · exact sync_ok p rules false hce
  | false =>
    have hm := hmk hce
    refine ⟨(syncFiles p.fs rules false).1,
      { p with pathExists := true, claudeExists := true },
      { p with
          pathExists := true
          claudeExists := true
          fs := (syncFiles p.fs rules false).2 }, ?_, rfl, rfl, ?_⟩
    · rw [sync_mk p rules true hce hm, syncFiles_dry_snd, hs]
    · exact sync_mk p rules false hce hm

/-- C2, witness: a dry run on a project holding `a.md`(`old`) against source
`a.md`(`new`) reports the same one-update count as the real run and leaves
the old content in place. -/
theorem claim_C2_wit :
    (sync_rules_to_project projOld [rfNew] true).map
        (fun r => (r.1, r.2.fs.files "a.md")) =
      Except.ok (⟨0, 1, 0, 0⟩, some "old") := by
  obtain ⟨s, pd, pw, h1, h2, h3, h4⟩ :=
    claim_C2 projOld [rfNew] (fun h => Bool.noConfusion h) (by simp)
      (by intro rf hr; rw [List.mem_singleton] at hr; subst hr; exact ⟨rfl, rfl⟩)
  have h5 : sync_rules_to_project projOld [rfNew] false =
      Except.ok (⟨0, 1, 0, 0⟩,
        { projOld with fs := (syncFiles projOld.fs [rfNew] false).2 }) := by
    rw [sync_ok projOld [rfNew] false rfl]
    rfl
  have h6 := h5.symm.trans h4
  simp only [Except.ok.injEq, Prod.mk.injEq] at h6
  rw [h1, ← h6.1]
  simp only [Except.map]
  rw [h2]
  rfl

/-! ### Claim C1 -/

/-- C1, counterexample: for a rule file whose destination is missing and
whose write fails, one iteration of the loop increments both `copied` and
`errors` — two counters for one (project, rule file) pair, refuting "never
more than one". -/
theorem claim_C1_cex :
    (syncFile fsNoWrite rfNew false).1.copied = 1 ∧
      (syncFile fsNoWrite rfNew false).1.errors = 1 ∧
      (syncFile fsNoWrite rfNew false).1.total = 2 :=
  ⟨rfl, rfl, rfl⟩

/-- C1, amended: every processed (project, rule file) pair increments exactly
one of the four counters, except when an I/O failure occurs during the write
step after the copy/update decision was made: outside dry-run, a failing
`shutil.copy2` adds an `errors` increment on top of the already-incremented
`copied` or `updated` counter, so exactly two counters are incremented
there. -/
theorem claim_C1 (fs : FS) (rf : RuleFile) (d : Bool) :
    (syncFile fs rf d).1.total = 1 ∨
      ((syncFile fs rf d).1.total = 2 ∧ (syncFile fs rf d).1.errors = 1 ∧
        (syncFile fs rf d).1.skipped = 0 ∧ d = false ∧ copy2Fails fs rf = true) := by
  rw [syncFile_fst]
  unfold syncFileStep
  cases fs.files rf.name with
  | some t =>
    dsimp only
    split_ifs with h1 h2 h3 h4 h5
    · left; rfl
    · left; rfl
    · left; rfl
    · left; rfl
    · right
      exact ⟨rfl, rfl, rfl, by simpa using h4, h5⟩
    · left; rfl
  | none =>
    dsimp only
    split_ifs with h1 h2
    · left; rfl
    · right
      exact ⟨rfl, rfl, rfl, by simpa using h1, h2⟩
    · left; rfl

/-! ### Claim C3 -/

/-- C3: for a rule file processed without I/O failure, a missing destination
gives decision COPY (written outside dry-run), an existing destination with
equal content gives SKIP with no write, and an existing destination with
differing content gives UPDATE, overwritten with the source content outside
dry-run. -/
theorem claim_C3 (fs : FS) (rf : RuleFile) (d : Bool)
    (hsr : rf.readFail = false) (hsd : rf.decodable = true)
    (htr : fs.readFailT rf.name = false) (htd : fs.decodable rf.name = true)
    (hw : fs.writeFail rf.name = false) :
    (syncFile fs rf d).1 =
      (match fs.files rf.name with
       | none => ⟨1, 0, 0, 0⟩
       | some t => if rf.content = t then ⟨0, 0, 1, 0⟩ else ⟨0, 1, 0, 0⟩) ∧
    (syncFile fs rf d).2 =
      (match fs.files rf.name with
       | none => if d then fs else fs.write rf
       | some t =>
         if rf.content = t then fs
         else if d then fs else fs.write rf) := by
  have hc : copy2Fails fs rf = false := by
    simp [copy2Fails, hsr, hw]
  rw [syncFile_fst, syncFile_snd]
  unfold syncFileStep
  cases hfe : fs.files rf.name with
  | none => cases d <;> simp [hc]
  | some t =>
    by_cases he : rf.content = t <;> cases d <;>
      simp [hsr, hsd, htr, htd, hc, he]

/-- C3, witness: with `a.md` containing `old` in the target and `new` at the
source, the decision is UPDATE and the target is overwritten. -/
theorem claim_C3_wit :
    (syncFile fsOld rfNew false).1 = ⟨0, 1, 0, 0⟩ ∧
      (syncFile fsOld rfNew false).2 = fsOld.write rfNew := by
  have h := claim_C3 fsOld rfNew false rfl rfl rfl rfl rfl
  exact ⟨by rw [h.1]; rfl, by rw [h.2]; rfl⟩

/-! ### Claim C5 -/

/-- When the failure condition of one loop iteration holds, that iteration
leaves the directory untouched, counts one error, and skips nothing. -/
theorem stepFails_spec {fs : FS} {rf : RuleFile} {d : Bool}
    (h : stepFails fs rf d = true) :
    (syncFile fs rf d).2 = fs ∧ (syncFile fs rf d).1.errors = 1 ∧
      (syncFile fs rf d).1.skipped = 0 := by
  unfold stepFails at h
  rw [syncFile_fst, syncFile_snd]
  unfold syncFileStep
  cases hf : fs.files rf.name with
  | some t =>
    rw [hf] at h
    dsimp only at h ⊢
    split_ifs <;> simp_all
  | none =>
    rw [hf] at h
    dsimp only at h ⊢
    split_ifs <;> simp_all

/-- A source rule file `a.md` whose OS-level read fails. -/
def rfOldBadRead : RuleFile := ⟨"a.md", "new", true, true⟩

/-- C5: a per-file I/O failure is isolated: the failing file adds exactly one
`errors` increment, every other rule file of the project is processed
exactly as it would be without the failing file (same counters, same final
directory state), and the project's sync still completes normally
(`Except.ok`), so later files, later projects and the run are not
aborted. -/
theorem claim_C5 (p : Project) (l1 l2 : List RuleFile) (rf : RuleFile) (d : Bool)
    (hce : p.claudeExists = true)
    (hfail : stepFails (syncFiles p.fs l1 d).2 rf d = true) :
    (syncFile (syncFiles p.fs l1 d).2 rf d).1.errors = 1 ∧
    (syncFile (syncFiles p.fs l1 d).2 rf d).1.skipped = 0 ∧
    sync_rules_to_project p (l1 ++ rf :: l2) d =
      Except.ok
        ((syncFiles p.fs (l1 ++ l2) d).1.add (syncFile (syncFiles p.fs l1 d).2 rf d).1,
          { p with fs := (syncFiles p.fs (l1 ++ l2) d).2 }) := by
  obtain ⟨hst, herr, hsk⟩ := stepFails_spec hfail
  refine ⟨herr, hsk, ?_⟩
  rw [sync_ok p (l1 ++ rf :: l2) d hce]
  have hA : syncFiles p.fs (l1 ++ rf :: l2) d =
      ((syncFiles p.fs (l1 ++ l2) d).1.add
          (syncFile (syncFiles p.fs l1 d).2 rf d).1,
        (syncFiles p.fs (l1 ++ l2) d).2) := by
    rw [syncFiles_append l1 (rf :: l2) p.fs d, syncFiles_append l1 l2 p.fs d]
    rw [show syncFiles (syncFiles p.fs l1 d).2 (rf :: l2) d =
        ((syncFile (syncFiles p.fs l1 d).2 rf d).1.add
            (syncFiles (syncFile (syncFiles p.fs l1 d).2 rf d).2 l2 d).1,
          (syncFiles (syncFile (syncFiles p.fs l1 d).2 rf d).2 l2 d).2) from rfl]
    rw [hst]
    rw [Stats.add_right_comm']
  rw [hA]

/-- C5, witness: with `a.md`(`old`) present in the target, a source `a.md`
whose read fails is counted as one error and the project's sync completes. -/
theorem claim_C5_wit :
    (sync_rules_to_project projOld [rfOldBadRead] false).map Prod.fst =
      Except.ok ⟨0, 0, 0, 1⟩ := by
  have h := (claim_C5 projOld [] [] rfOldBadRead false rfl (by decide)).2.2
  rw [List.nil_append] at h
  rw [h]
  rfl

/-! ### Claim C4 -/

/-- Agreement transfers the synced-state property between directory states. -/
theorem syncedAt_of_agree {a b : FS} {rf : RuleFile}
    (h : FS.agreeAt a b rf.name) (hs : syncedAt b rf) : syncedAt a rf :=
  ⟨h.1.trans hs.1, h.2.1.trans hs.2.1, h.2.2.1.trans hs.2.2⟩

/-- An error-free non-dry iteration for a decodable source leaves the target
holding a faithful readable copy of the source, and shows the source itself
was readable. -/
theorem syncFile_no_error {fs : FS} {rf : RuleFile} (hdec : rf.decodable = true)
    (herr : (syncFile fs rf false).1.errors = 0) :
    syncedAt (syncFile fs rf false).2 rf ∧ rf.readFail = false := by
  rw [syncFile_fst] at herr
  rw [syncFile_snd]
  unfold syncFileStep at herr ⊢
  cases hf : fs.files rf.name with
  | some t =>
    dsimp only at herr ⊢
    split_ifs at herr ⊢ with h1 h2 h3 h4 <;>
      simp_all [syncedAt, FS.write, copy2Fails]
  | none =>
    dsimp only at herr ⊢
    split_ifs at herr ⊢ with h1 <;>
      simp_all [syncedAt, FS.write, copy2Fails]

/-- After an error-free non-dry run of the loop over distinct decodable rule
files, every processed name holds a faithful readable copy of its source,
and every source was readable. -/
theorem syncFiles_no_errors (rules : List RuleFile) (fs : FS)
    (hnod : (rules.map RuleFile.name).Nodup)
    (hdec : ∀ rf ∈ rules, rf.decodable = true)
    (herr : (syncFiles fs rules false).1.errors = 0) :
    ∀ rf ∈ rules, syncedAt (syncFiles fs rules false).2 rf ∧ rf.readFail = false := by
  induction rules generalizing fs with
  | nil => intro rf h; cases h
  | cons rf rest ih =>
    rw [List.map_cons, List.nodup_cons] at hnod
    obtain ⟨hni, hnod'⟩ := hnod
    have hsplit : (syncFiles fs (rf :: rest) false).1 =
        (syncFile fs rf false).1.add
          (syncFiles (syncFile fs rf false).2 rest false).1 := rfl
    rw [hsplit, Stats.errors_add] at herr
    have he1 : (syncFile fs rf false).1.errors = 0 := by omega
    have he2 : (syncFiles (syncFile fs rf false).2 rest false).1.errors = 0 := by omega
    have hhead := syncFile_no_error (hdec rf (by simp)) he1
    intro r hr
    rcases List.mem_cons.mp hr with hEq | hmem
    · subst hEq
      refine ⟨?_, hhead.2⟩
      have hpres : FS.agreeAt (syncFiles (syncFile fs r false).2 rest false).2
          (syncFile fs r false).2 r.name := by
        apply syncFiles_preserves
        intro r' hr' hEq2
        exact hni (hEq2 ▸ List.mem_map_of_mem RuleFile.name hr')
      exact syncedAt_of_agree hpres hhead.1
    · exact ih (syncFile fs rf false).2 hnod'
        (fun r' h' => hdec r' (by simp [h'])) he2 r hmem

/-- Running the loop over rule files whose targets already hold faithful
readable copies skips every file and changes nothing. -/
theorem syncFiles_synced (rules : List RuleFile) (fs : FS)
    (h : ∀ rf ∈ rules, syncedAt fs rf ∧ rf.readFail = false ∧ rf.decodable = true) :
    syncFiles fs rules false = (⟨0, 0, rules.length, 0⟩, fs) := by
  induction rules with
  | nil => rfl
  | cons rf rest ih =>
    obtain ⟨⟨hfm, hfd, hft⟩, hr, hd⟩ := h rf (by simp)
    have hstep : syncFile fs rf false = (⟨0, 0, 1, 0⟩, fs) := by
      unfold syncFile syncFileStep
      rw [hfm]
      simp [hr, hd, hft, hfd]
    show ((syncFile fs rf false).1.add
        (syncFiles (syncFile fs rf false).2 rest false).1,
      (syncFiles (syncFile fs rf false).2 rest false).2) = _
    rw [hstep]
    dsimp only
    rw [ih (fun r hr' => h r (by simp [hr']))]
    simp [Stats.add, Nat.add_comm]

/-- C4: after an error-free non-dry sync of a project (rule-file names
distinct as the loader guarantees, all sources valid UTF-8 — see the
counterexample for why that extra condition is needed), a second sync of the
resulting project with the same rule files skips every file, counts nothing
else, and leaves the project unchanged. -/
theorem claim_C4 (p : Project) (rules : List RuleFile) (s1 : Stats) (p1 : Project)
    (hnod : (rules.map RuleFile.name).Nodup)
    (hdec : ∀ rf ∈ rules, rf.decodable = true)
    (h1 : sync_rules_to_project p rules false = Except.ok (s1, p1))
    (herr : s1.errors = 0) :
    sync_rules_to_project p1 rules false =
      Except.ok (⟨0, 0, rules.length, 0⟩, p1) := by
  have hmain : ∀ q : Project, q.claudeExists = true →
      q.fs = (syncFiles p.fs rules false).2 →
      (syncFiles p.fs rules false).1 = s1 →
      sync_rules_to_project q rules false =
        Except.ok (⟨0, 0, rules.length, 0⟩, q) := by
    intro q hqce hqfs hqs
    rw [sync_ok q rules false hqce]
    have hsync : ∀ rf ∈ rules, syncedAt q.fs rf ∧ rf.readFail = false ∧
        rf.decodable = true := by
      intro rf hr
      have h5 := syncFiles_no_errors rules p.fs hnod hdec
        (by rw [hqs]; exact herr) rf hr
      exact ⟨hqfs ▸ h5.1, h5.2, hdec rf hr⟩
    rw [syncFiles_synced rules q.fs hsync]
  cases hce : p.claudeExists with
  | true =>
    rw [sync_ok p rules false hce] at h1
    simp only [Except.ok.injEq, Prod.mk.injEq] at h1
    obtain ⟨hs, hp⟩ := h1
    exact hmain p1 (by rw [← hp]; exact hce) (by rw [← hp]) hs
  | false =>
    cases hmf : p.mkdirFail with
    | true =>
      rw [sync_err p rules false hce hmf] at h1
      cases h1
    | false =>
      rw [sync_mk p rules false hce hmf] at h1
      simp only [Except.ok.injEq, Prod.mk.injEq] at h1
      obtain ⟨hs, hp⟩ := h1
      exact hmain p1 (by rw [← hp]) (by rw [← hp]) hs

/-- The project `proj` after a first sync: `.claude/` holds `a.md`(`new`). -/
def projNew : Project := ⟨"proj", true, true, false, fsOld.write rfNew⟩

/-- C4, witness: after syncing `a.md`(`new`) over `a.md`(`old`) without
errors, a second sync reports one skipped file and nothing else. -/
theorem claim_C4_wit :
    sync_rules_to_project projNew [rfNew] false =
      Except.ok (⟨0, 0, 1, 0⟩, projNew) := by
  have h := claim_C4 projOld [rfNew] ⟨0, 1, 0, 0⟩ projNew (by simp)
    (by intro rf hr; rw [List.mem_singleton] at hr; subst hr; rfl)
    (by rw [sync_ok projOld [rfNew] false rfl]; rfl) rfl
  exact h

/-- A project with an existing, empty `.claude/` directory. -/
def projEmpty : Project := ⟨"proj", true, true, false, fsEmpty⟩

/-- The state of `projEmpty` after a first sync of the non-UTF-8 rule file. -/
def c4second : Project :=
  match sync_rules_to_project projEmpty [rfBad] false with
  | Except.ok r => r.2
  | Except.error _ => projEmpty

/-- C4, counterexample: a source rule file whose bytes are not valid UTF-8 is
copied byte-for-byte without error on the first run (`copied=1, errors=0`),
but the second run must decode it for the comparison and fails: it reports
`errors=1, skipped=0` instead of the claimed `skipped=|R|, errors=0`. -/
theorem claim_C4_cex :
    (sync_rules_to_project projEmpty [rfBad] false).map Prod.fst =
      Except.ok ⟨1, 0, 0, 0⟩ ∧
    (sync_rules_to_project c4second [rfBad] false).map Prod.fst =
      Except.ok ⟨0, 0, 0, 1⟩ :=
  ⟨rfl, rfl⟩

/-! ### Claim C10 -/

/-- C10: when the destination exists and either file's bytes fail UTF-8
decoding, the file is counted under `errors`, nothing is written, and
`updated` stays zero. -/
theorem claim_C10 (fs : FS) (rf : RuleFile) (d : Bool) (t : String)
    (ht : fs.files rf.name = some t)
    (hbad : rf.decodable = false ∨ fs.decodable rf.name = false) :
    syncFile fs rf d = (⟨0, 0, 0, 1⟩, fs) := by
  have hstep : syncFileStep fs rf d = (⟨0, 0, 0, 1⟩, false) := by
    unfold syncFileStep
    rw [ht]
    rcases hbad with hb | hb
    · simp [hb]
    · by_cases h1 : (rf.readFail || !rf.decodable) = true
      · simp [h1]
      · simp [h1, hb]
  unfold syncFile
  rw [hstep]
  rfl

/-- C10, witness: a source file that is not valid UTF-8, compared against an
existing target, yields one error, no update, and an unchanged target. -/
theorem claim_C10_wit : syncFile fsBadTarget rfBad false = (⟨0, 0, 0, 1⟩, fsBadTarget) :=
  claim_C10 fsBadTarget rfBad false "y" rfl (Or.inl rfl)

/-! ### Claim C7 -/

/-- C7: `find_projects` returns a lexicographically sorted list containing a
name exactly when the parent directory has an entry with that name which is
a directory, is not hidden, is not the universal-rules directory itself, and
contains an existing `.claude` directory. -/
theorem claim_C7 (entries : List DirEntry) (selfName : String) :
    (find_projects entries selfName).Sorted (· ≤ ·) ∧
    ∀ x, x ∈ find_projects entries selfName ↔
      ∃ e ∈ entries, e.isDir = true ∧ e.name.startsWith "." = false ∧
        e.name ≠ selfName ∧ e.hasClaudeDir = true ∧ e.name = x := by
  constructor
  · exact List.sorted_insertionSort _ _
  · intro x
    unfold find_projects
    rw [List.mem_insertionSort, List.mem_map]
    constructor
    · rintro ⟨e, he, hx⟩
      rw [List.mem_filter] at he
      obtain ⟨hmem, hfilt⟩ := he
      simp only [projectFilter, Bool.and_eq_true, Bool.not_eq_true',
        decide_eq_true_eq] at hfilt
      obtain ⟨⟨⟨hA, hB⟩, hC⟩, hD⟩ := hfilt
      exact ⟨e, hmem, hA, hB, hC, hD, hx⟩
    · rintro ⟨e, hmem, hA, hB, hC, hD, hx⟩
      refine ⟨e, ?_, hx⟩
      rw [List.mem_filter]
      refine ⟨hmem, ?_⟩
      simp [projectFilter, hA, hB, hC, hD]

/-! ### Claim C8 -/

/-- The sync engine raises exactly when the `.claude/` directory is missing
and its creation fails; no other input makes it abort. -/
theorem sync_error_iff (p : Project) (rules : List RuleFile) (d : Bool) :
    sync_rules_to_project p rules d = Except.error () ↔
      p.claudeExists = false ∧ p.mkdirFail = true := by
  cases hce : p.claudeExists with
  | true => rw [sync_ok p rules d hce]; simp [hce]
  | false =>
    cases hmf : p.mkdirFail with
    | true => rw [sync_err p rules d hce hmf]; simp [hce, hmf]
    | false => rw [sync_mk p rules d hce hmf]; simp [hmf]

/-- The orchestrator loop aborts exactly when some target project has a
missing `.claude/` directory whose creation fails. -/
theorem runAll_error_iff (ps : List Project) (rules : List RuleFile) (d : Bool) :
    runAll ps rules d = Except.error () ↔
      ∃ p ∈ ps, p.claudeExists = false ∧ p.mkdirFail = true := by
  induction ps with
  | nil => simp [runAll]
  | cons p rest ih =>
    unfold runAll
    cases hs : sync_rules_to_project p rules d with
    | error e =>
      cases e
      have hp := (sync_error_iff p rules d).mp hs
      dsimp only
      exact iff_of_true rfl ⟨p, List.mem_cons_self p rest, hp⟩
    | ok r =>
      have hp : ¬(p.claudeExists = false ∧ p.mkdirFail = true) := by
        intro hc
        have hcontra := (sync_error_iff p rules d).mpr hc
        rw [hcontra] at hs
        cases hs
      cases hr : runAll rest rules d with
      | error e2 =>
        cases e2
        dsimp only
        constructor
        · intro _
          obtain ⟨q, hq, hqp⟩ := ih.mp hr
          exact ⟨q, List.mem_cons_of_mem p hq, hqp⟩
        · intro _
          rfl
      | ok rr =>
        dsimp only
        constructor
        · intro hcon
          cases hcon
        · rintro ⟨q, hq, hqp⟩
          rcases List.mem_cons.mp hq with rfl | hq'
          · exact absurd hqp hp
          · rw [ih.mpr ⟨q, hq', hqp⟩] at hr
            cases hr

/-- C8: a failure of the `.claude/` directory creation is raised outside the
per-file error isolation: the engine aborts with an exception before any
rule file is processed and no statistics are produced; the orchestrator
aborts for exactly this condition (per-file failures never abort it); and in
`--project` mode such a failure aborts the whole run with no totals. -/
theorem claim_C8 :
    (∀ (p : Project) (rules : List RuleFile) (d : Bool),
        p.claudeExists = false → p.mkdirFail = true →
          sync_rules_to_project p rules d = Except.error ()) ∧
    (∀ (ps : List Project) (rules : List RuleFile) (d : Bool),
        runAll ps rules d = Except.error () ↔
          ∃ p ∈ ps, p.claudeExists = false ∧ p.mkdirFail = true) ∧
    (∀ (p : Project) (rules : List RuleFile) (d am : Bool)
        (disc : List Project), p.claudeExists = false → p.mkdirFail = true →
          rules ≠ [] → mainRun (some p) am d rules disc = Except.error ()) := by
  refine ⟨fun p rules d h1 h2 => sync_err p rules d h1 h2,
    fun ps rules d => runAll_error_iff ps rules d, ?_⟩
  intro p rules d am disc h1 h2 hne
  have hre : rules.isEmpty = false := by
    cases rules with
    | nil => exact absurd rfl hne
    | cons a l => rfl
  have hrA : runAll (mainTargets (some p) disc) rules d = Except.error () := by
    show runAll [p] rules d = Except.error ()
    unfold runAll
    rw [sync_err p rules d h1 h2]
  unfold mainRun
  rw [if_neg (by simp), if_neg (by simp [hre]), if_neg (by simp [mainTargets]), hrA]
  rfl

/-- A project whose `.claude/` directory is missing and whose `mkdir`
fails. -/
def projStuck : Project := ⟨"stuck", true, false, true, fsEmpty⟩

/-- C8, witness: on a project with a missing `.claude/` directory whose
creation fails, the engine aborts with the propagated exception. -/
theorem claim_C8_wit :
    sync_rules_to_project projStuck [rfNew] false = Except.error () :=
  claim_C8.1 projStuck [rfNew] false rfl rfl

/-! ### Claim C9 -/

/-- A run of the loop over distinct rule files all of whose targets are
missing, with no I/O failure, counts every file as copied. -/
theorem syncFiles_all_new (rules : List RuleFile) (fs : FS) (d : Bool)
    (hnod : (rules.map RuleFile.name).Nodup)
    (hempty : ∀ rf ∈ rules, fs.files rf.name = none)
    (hio : ∀ rf ∈ rules, rf.readFail = false ∧ fs.writeFail rf.name = false) :
    (syncFiles fs rules d).1 = ⟨rules.length, 0, 0, 0⟩ := by
  induction rules generalizing fs with
  | nil => rfl
  | cons rf rest ih =>
    rw [List.map_cons, List.nodup_cons] at hnod
    obtain ⟨hni, hnod'⟩ := hnod
    obtain ⟨hr, hw⟩ := hio rf (by simp)
    have hc : copy2Fails fs rf = false := by simp [copy2Fails, hr, hw]
    have hh : (syncFile fs rf d).1 = ⟨1, 0, 0, 0⟩ := by
      rw [syncFile_fst]
      unfold syncFileStep
      rw [hempty rf (by simp)]
      cases d <;> simp [hc]
    have hE : ∀ r ∈ rest, (syncFile fs rf d).2.files r.name = none := by
      intro r hmem
      have hne : r.name ≠ rf.name :=
        fun hEq => hni (hEq ▸ List.mem_map_of_mem RuleFile.name hmem)
      rw [(syncFile_preserves fs d hne).1]
      exact hempty r (by simp [hmem])
    have hI : ∀ r ∈ rest,
        r.readFail = false ∧ (syncFile fs rf d).2.writeFail r.name = false := by
      intro r hmem
      rw [syncFile_writeFail]
      exact hio r (by simp [hmem])
    show ((syncFile fs rf d).1.add (syncFiles (syncFile fs rf d).2 rest d).1) = _
    rw [hh, ih (syncFile fs rf d).2 hnod' hE hI]
    simp [Stats.add, Nat.add_comm]

/-- C9: for a `--project` path that does not exist at all, the engine
silently creates the whole missing path — project segments and `.claude/`,
even under `dry_run` — and, absent I/O failures, counts every rule file as
copied with zero errors. -/
theorem claim_C9 (p : Project) (rules : List RuleFile) (d : Bool)
    (_hpe : p.pathExists = false) (hce : p.claudeExists = false)
    (hmk : p.mkdirFail = false)
    (hempty : ∀ n, p.fs.files n = none)
    (hnod : (rules.map RuleFile.name).Nodup)
    (hio : ∀ rf ∈ rules, rf.readFail = false ∧ p.fs.writeFail rf.name = false) :
    sync_rules_to_project p rules d =
      Except.ok (⟨rules.length, 0, 0, 0⟩,
        { p with
            pathExists := true
            claudeExists := true
            fs := (syncFiles p.fs rules d).2 }) := by
  rw [sync_mk p rules d hce hmk]
  rw [syncFiles_all_new rules p.fs d hnod (fun rf _ => hempty rf.name) hio]

/-- A project path that does not exist at all (no directory, no `.claude/`,
nothing inside). -/
def projFresh : Project := ⟨"fresh", false, false, false, fsEmpty⟩

/-- C9, witness: a dry-run `--project` sync of a nonexistent path still
creates the path and its `.claude/` directory and reports one copy. -/
theorem claim_C9_wit :
    sync_rules_to_project projFresh [rfNew] true =
      Except.ok (⟨1, 0, 0, 0⟩,
        { projFresh with
            pathExists := true
            claudeExists := true
            fs := (syncFiles projFresh.fs [rfNew] true).2 }) :=
  claim_C9 projFresh [rfNew] true rfl rfl rfl (fun _ => rfl) (by simp)
    (by intro rf hr; rw [List.mem_singleton] at hr; subst hr; exact ⟨rfl, rfl⟩)

/-! ### Claim C6 -/

/-- C6: a completed run exits 1 exactly when neither mode was supplied or no
rule files were loaded; in those fatal cases nothing is synced (zero totals,
targets untouched).  Every other completed run — including an empty target
list and runs with nonzero per-file error counters — exits 0. -/
theorem claim_C6 (pm : Option Project) (am d : Bool) (rules : List RuleFile)
    (disc : List Project) (code : Nat) (s : Stats) (ts : List Project)
    (h : mainRun pm am d rules disc = Except.ok (code, s, ts)) :
    (code = 1 ↔ ((pm = none ∧ am = false) ∨ rules = [])) ∧
    (((pm = none ∧ am = false) ∨ rules = []) →
      s = Stats.zero ∧ ts = mainTargets pm disc) := by
  unfold mainRun at h
  by_cases h1 : (pm.isNone && !am) = true
  · rw [if_pos h1] at h
    simp only [Except.ok.injEq, Prod.mk.injEq] at h
    obtain ⟨hc, hsv, hts⟩ := h
    have hfatal : pm = none ∧ am = false := by
      have h1' := h1
      simp only [Bool.and_eq_true, Bool.not_eq_true'] at h1'
      exact ⟨Option.isNone_iff_eq_none.mp h1'.1, h1'.2⟩
    exact ⟨iff_of_true hc.symm (Or.inl hfatal), fun _ => ⟨hsv.symm, hts.symm⟩⟩
  · rw [if_neg h1] at h
    have hnm : ¬(pm = none ∧ am = false) := by
      intro hcon
      exact h1 (by simp [hcon.1, hcon.2])
    by_cases h2 : rules.isEmpty = true
    · rw [if_pos h2] at h
      simp only [Except.ok.injEq, Prod.mk.injEq] at h
      obtain ⟨hc, hsv, hts⟩ := h
      exact ⟨iff_of_true hc.symm (Or.inr (List.isEmpty_iff.mp h2)),
        fun _ => ⟨hsv.symm, hts.symm⟩⟩
    · rw [if_neg h2] at h
      have hnot : ¬((pm = none ∧ am = false) ∨ rules = []) := by
        rintro (hcon | hcon)
        · exact hnm hcon
        · exact h2 (by simp [hcon])
      by_cases h3 : (mainTargets pm disc).isEmpty = true
      · rw [if_pos h3] at h
        simp only [Except.ok.injEq, Prod.mk.injEq] at h
        obtain ⟨hc, hsv, hts⟩ := h
        exact ⟨iff_of_false (by omega) hnot, fun hcon => absurd hcon hnot⟩
      · rw [if_neg h3] at h
        cases hra : runAll (mainTargets pm disc) rules d with
        | error e =>
          rw [hra] at h
          simp [Except.map] at h
        | ok r =>
          rw [hra] at h
          simp only [Except.map, Except.ok.injEq, Prod.mk.injEq] at h
          obtain ⟨hc, hsv, hts⟩ := h
          exact ⟨iff_of_false (by omega) hnot, fun hcon => absurd hcon hnot⟩

/-- C6, witness: with neither `--project` nor `--all`, the run exits 1 with
zero totals and untouched targets. -/
theorem claim_C6_wit :
    ((1 : Nat) = 1 ↔
        (((none : Option Project) = none ∧ false = false) ∨
          ([rfNew] : List RuleFile) = [])) ∧
    ((((none : Option Project) = none ∧ false = false) ∨
        ([rfNew] : List RuleFile) = []) →
      Stats.zero = Stats.zero ∧ ([] : List Project) = mainTargets none []) :=
  claim_C6 none false false [rfNew] [] 1 Stats.zero [] rfl

end SyncRules
